import Mathlib

set_option maxRecDepth 8192

/-!
Verification of the mining-coordinator core of `web-xmr-miner-poc`.

The definitions below are a shallow embedding of the JavaScript/TypeScript
sources:
  * `public/block-header.js`   — block header record, serializer, nonce-space
    partitioner, hex helpers;
  * `public/hash-worker.js`    — per-worker hashing loop and message handler
    (WASM backend);
  * `public/hash-worker-webgpu.js` — the WebGPU variant of the loop body;
  * `src/lib/coordinator.ts`   — pool coordinator.

JavaScript numbers are modelled as `Nat`/`Int` (all values that occur are
integers far below 2^53, where double arithmetic is exact); JavaScript's
32-bit operators (`>>`, `&`) are modelled explicitly via `toInt32`;
`Uint8Array` stores are modelled by `toUint8` (reduction modulo 256);
exceptions are modelled with `Except`/`Option`.
-/

namespace Miner

/-! ## Hex digit primitives (shared by several JS builtins) -/

/-- Value of a hexadecimal digit character, as accepted by JS `parseInt(·,16)`
and `BigInt("0x…")`: `0-9`, `a-f`, `A-F`. -/
def hexDigitVal? (c : Char) : Option Nat :=
  if '0' ≤ c ∧ c ≤ '9' then some (c.toNat - 48)
  else if 'a' ≤ c ∧ c ≤ 'f' then some (c.toNat - 87)
  else if 'A' ≤ c ∧ c ≤ 'F' then some (c.toNat - 55)
  else none

/-- Whitespace for the purposes of JS `/\s/` and number parsing
(ASCII subset; the sources only ever produce ASCII). -/
def isJsSpace (c : Char) : Bool :=
  c = ' ' ∨ c = '\t' ∨ c = '\n' ∨ c = '\r' ∨ c = '\x0b' ∨ c = '\x0c'

/-- Big-endian value of a list of hex digits (digits assumed valid;
invalid ones count 0, they never occur on this path). -/
def hexDigitsVal (ds : List Char) : Nat :=
  ds.foldl (fun a c => 16 * a + (hexDigitVal? c).getD 0) 0

/-- Longest leading run of hex digits, as consumed by `parseInt(·,16)`. -/
def takeHexDigits (cs : List Char) : List Char :=
  cs.takeWhile (fun c => (hexDigitVal? c).isSome)

/-- Body of JS `parseInt(s,16)` after sign handling: an optional `0x`/`0X`
marker, then the longest hex-digit run; no digits means `NaN` (`none`). -/
def parseHexBody (cs : List Char) : Option Nat :=
  let cs :=
    if cs.take 2 = ['0', 'x'] ∨ cs.take 2 = ['0', 'X'] then cs.drop 2 else cs
  match takeHexDigits cs with
  | [] => none
  | ds => some (hexDigitsVal ds)

/-- JS `parseInt(s,16)`: skip leading whitespace, optional sign, optional
`0x` marker, longest hex-digit run; `none` models `NaN`. -/
def jsParseInt16 (cs : List Char) : Option Int :=
  match cs.dropWhile isJsSpace with
  | [] => Option.map (fun n : Nat => (n : Int)) (parseHexBody [])
  | c :: r =>
    if c = '+' then Option.map (fun n : Nat => (n : Int)) (parseHexBody r)
    else if c = '-' then Option.map (fun n : Nat => -(n : Int)) (parseHexBody r)
    else Option.map (fun n : Nat => (n : Int)) (parseHexBody (c :: r))

/-- JS `v || 0` applied to a `parseInt` result: `NaN` (and `0` itself)
collapse to `0`. -/
def jsOr0 (v : Option Int) : Int :=
  match v with
  | none => 0
  | some n => n

/-- Storing a JS number into a `Uint8Array` slot: `ToUint8`, i.e. reduction
modulo 256 (`%` on `Int` is the Euclidean remainder, always
non-negative). -/
def toUint8 (v : Int) : Nat := (v % 256).toNat

/-- JS `ToInt32`: reduce modulo 2^32 into `[-2^31, 2^31)`. -/
def toInt32 (x : Int) : Int :=
  if 2147483648 ≤ x % 4294967296 then x % 4294967296 - 4294967296
  else x % 4294967296

/-- JS `x >> k` for the constant shifts used by the serializer:
sign-propagating shift, i.e. floor division of the 32-bit value by `2^k`
(for a positive divisor, `/` on `Int` is floor division). -/
def jsShr (x : Int) (k : Nat) : Int := toInt32 x / 2 ^ k

/-- One byte of the serializer: `(x >> k) & 0xFF` stored into the buffer.
For an `Int32` value, `& 0xFF` is the non-negative residue modulo 256. -/
def jsByte (x : Int) (k : Nat) : Nat := (jsShr x k % 256).toNat

/-- JS `BigInt("0x" ++ hash)` (`hash-worker*.js` difficulty check): the prefix
pins the start of the literal, trailing whitespace of `hash` is trimmed, and
the remainder must be a non-empty run of hex digits — otherwise a
`SyntaxError` is thrown (`none`). -/
def jsBigIntOx (hash : String) : Option Nat :=
  let ds := (hash.data.reverse.dropWhile isJsSpace).reverse
  if ds ≠ [] ∧ ds.all (fun c => (hexDigitVal? c).isSome) then some (hexDigitsVal ds)
  else none

/-! ## `public/block-header.js` -/

/-- `0xFFFFFFFF`, the largest 32-bit nonce. -/
def MAX_UINT32 : Nat := 4294967295

/-- Result record of `partitionNonceSpace` (`{nonceStart, nonceEnd}`).
Fields are `Int` because the JS expression `(workerId+1)*partitionSize - 1`
is ordinary number arithmetic (it can even leave `[0, 2^32)`,
see `coordinatorInitData`). -/
structure NonceRange where
  nonceStart : Int
  nonceEnd : Int
deriving DecidableEq

/-- `partitionNonceSpace(workerId, totalWorkers)` from `block-header.js`.
`Math.floor(MAX_UINT32 / totalWorkers)` is exact floor division here
(`MAX_UINT32 * 1 ≤ 2^32 < 2^53`). -/
def partitionNonceSpace (workerId totalWorkers : Nat) : NonceRange :=
  let partitionSize : Nat := MAX_UINT32 / totalWorkers
  { nonceStart := (workerId * partitionSize : Nat)
    nonceEnd :=
      if workerId = totalWorkers - 1 then (MAX_UINT32 : Int)
      else ((workerId + 1) * partitionSize : Int) - 1 }

/-- Membership of a nonce in a range (both bounds inclusive). -/
def inNonceRange (r : NonceRange) (x : Int) : Prop :=
  r.nonceStart ≤ x ∧ x ≤ r.nonceEnd

instance (r : NonceRange) (x : Int) : Decidable (inNonceRange r x) := by
  unfold inNonceRange; infer_instance

/-- The `BlockHeader` record. Hash fields are hex strings exactly as in the
source; numeric fields are JS numbers. -/
structure BlockHeader where
  version : Int
  prevHash : String
  merkleRoot : String
  timestamp : Int
  nonce : Int
deriving DecidableEq

/-- `BlockHeader.setNonce`. -/
def BlockHeader.setNonce (h : BlockHeader) (nonce : Int) : BlockHeader :=
  { h with nonce := nonce }

/-- `BlockHeader.updateTimestamp`. -/
def BlockHeader.updateTimestamp (h : BlockHeader) (timestamp : Int) : BlockHeader :=
  { h with timestamp := timestamp }

/-- `hex.replace(/^0x/, '')`: drop one leading literal `0x`. -/
def strip0x (cs : List Char) : List Char :=
  if cs.take 2 = ['0', 'x'] then cs.drop 2 else cs

/-- `hex.replace(/\s/g, '')`: drop all whitespace. -/
def stripSpaces (cs : List Char) : List Char :=
  cs.filter (fun c => !(isJsSpace c))

/-- `hex.padEnd(64, '0')`. -/
def padEnd64 (cs : List Char) : List Char :=
  cs ++ List.replicate (64 - cs.length) '0'

/-- `hexToBytes(hex)` from `block-header.js`: strip a `0x` prefix and all
whitespace, pad to 64 chars, then decode 32 two-char groups with
`parseInt(·,16) || 0` into a `Uint8Array(32)`. -/
def hexToBytes (s : String) : List Nat :=
  let hex := padEnd64 (stripSpaces (strip0x s.data))
  (List.range 32).map (fun i => toUint8 (jsOr0 (jsParseInt16 ((hex.drop (2 * i)).take 2))))

/-- `b.toString(16).padStart(2, '0')` for one byte. -/
def byteToHexPair (b : Nat) : List Char :=
  let ds := Nat.toDigits 16 b
  List.replicate (2 - ds.length) '0' ++ ds

/-- `bytesToHex(bytes)` from `block-header.js`. -/
def bytesToHex (bs : List Nat) : String :=
  ⟨bs.flatMap byteToHexPair⟩

/-- `BlockHeader.serialize()`: the 76-byte buffer, written field by field in
source order — version (4B LE) ‖ timestamp (4B LE) ‖ prevHash (32B) ‖
nonce (4B LE) ‖ merkleRoot (32B). -/
def BlockHeader.serialize (h : BlockHeader) : List Nat :=
  [jsByte h.version 0, jsByte h.version 8, jsByte h.version 16, jsByte h.version 24]
    ++ [jsByte h.timestamp 0, jsByte h.timestamp 8, jsByte h.timestamp 16, jsByte h.timestamp 24]
    ++ hexToBytes h.prevHash
    ++ [jsByte h.nonce 0, jsByte h.nonce 8, jsByte h.nonce 16, jsByte h.nonce 24]
    ++ hexToBytes h.merkleRoot

/-! ## `public/hash-worker.js` (WASM worker) and the WebGPU variant -/

/-- RandomX mode strings (`'light' | 'fast'`). -/
inductive RMode
  | light
  | fast
deriving DecidableEq

/-- The difficulty target set in the INIT handler of `hash-worker.js`
(`BigInt('0x00000000FFFF0000…0')`). -/
def difficultyTarget : Nat :=
  0x00000000FFFF0000000000000000000000000000000000000000000000000000

/-- The mutable globals of the hashing loop that one digest computation can
touch: the nonce counter and its partition bounds, the counters, the cache
timer, the current seed and the block template. -/
structure LoopState where
  nonce : Int
  nonceStart : Int
  nonceEnd : Int
  totalHashes : Nat
  solutionsFound : Nat
  cacheReinitCount : Nat
  lastCacheReinit : Nat
  seed : String
  blockTemplate : BlockHeader
deriving DecidableEq

/-- One pass of the inner `while` body of `hashingLoop` in `hash-worker.js`,
parameterized by the digest the opaque compute primitive returned:
set the nonce, serialize, parse the digest with `BigInt('0x'+hash)` (a
malformed digest throws, which propagates out of the loop), compare against
the target, advance and wrap the nonce, bump `totalHashes`. -/
def hashStep (st : LoopState) (digest : String) : Except String LoopState :=
  let tpl := st.blockTemplate.setNonce st.nonce
  match jsBigIntOx digest with
  | none => Except.error digest
  | some hashValue =>
    let solutions :=
      if hashValue < difficultyTarget then st.solutionsFound + 1 else st.solutionsFound
    let n1 := st.nonce + 1
    let n2 := if st.nonceEnd ≤ n1 then st.nonceStart else n1
    Except.ok { st with
      blockTemplate := tpl
      solutionsFound := solutions
      nonce := n2
      totalHashes := st.totalHashes + 1 }

/-- A batch of inner iterations (the digests the primitive returns, in
order); the first malformed digest aborts the batch. -/
def hashBatch (st : LoopState) (digests : List String) : Except String LoopState :=
  digests.foldlM hashStep st

/-- `CACHE_REINIT_INTERVAL` (120 seconds). -/
def cacheReinitInterval : Nat := 120000

/-- The cache-rotation check at the top of each outer `hashingLoop`
iteration: when 120 000 ms of Running time have passed, re-init the compute
primitive with a fresh seed, reset the timer, bump `cacheReinitCount` and
refresh the template timestamp; otherwise do nothing. `now` is
`performance.now()`, `nowSec` is `Math.floor(Date.now()/1000)`. -/
def cacheReinitCheck (st : LoopState) (now : Nat) (newSeed : String) (nowSec : Int) :
    LoopState :=
  if cacheReinitInterval ≤ now - st.lastCacheReinit then
    { st with
      seed := newSeed
      lastCacheReinit := now
      cacheReinitCount := st.cacheReinitCount + 1
      blockTemplate := st.blockTemplate.updateTimestamp nowSec }
  else st

/-- One outer iteration of `hashingLoop`: the cache-rotation check followed
in the same iteration by the inner hashing batch. -/
def outerIteration (st : LoopState) (now : Nat) (newSeed : String) (nowSec : Int)
    (digests : List String) : Except String LoopState :=
  hashBatch (cacheReinitCheck st now newSeed nowSec) digests

/-- Outcome of one Running session of the WASM worker: `hashingLoop(...)` is
started with a `.catch` that posts `ERROR` for the unit, so a digest parse
failure (or any other loop exception) ends the session in the Error state. -/
inductive SessionOutcome
  | errored (details : String)
  | completed (st : LoopState)
deriving DecidableEq

/-- `hashingLoop(data.config).catch(err => postMessage({type:'ERROR',…}))`
as started by the START handler of `hash-worker.js`. -/
def runSession (st : LoopState) (digests : List String) : SessionOutcome :=
  match hashBatch st digests with
  | Except.error e => SessionOutcome.errored e
  | Except.ok st₁ => SessionOutcome.completed st₁

/-- One pass of the inner loop body of `hash-worker-webgpu.js`: identical to
`hashStep` except that the difficulty comparison is wrapped in
`try { … } catch { console.error(…) }` — a malformed digest is only logged,
nothing is counted, and the iteration still advances the nonce and
`totalHashes`. -/
def hashStepGpu (st : LoopState) (digest : String) : LoopState :=
  let tpl := st.blockTemplate.setNonce st.nonce
  let solutions :=
    match jsBigIntOx digest with
    | some hashValue =>
      if hashValue < difficultyTarget then st.solutionsFound + 1 else st.solutionsFound
    | none => st.solutionsFound
  let n1 := st.nonce + 1
  let n2 := if st.nonceEnd ≤ n1 then st.nonceStart else n1
  { st with
    blockTemplate := tpl
    solutionsFound := solutions
    nonce := n2
    totalHashes := st.totalHashes + 1 }

/-- The worker-file globals read and written by the START handler:
`running`, the session counters, and whether `randomxModule` exists and has
finished `init` (the condition `randomxHash` checks). -/
structure WorkerGlobals where
  running : Bool
  totalHashes : Nat
  solutionsFound : Nat
  cacheReinitCount : Nat
  rxInitialized : Bool
deriving DecidableEq

/-- The worker's module-level initial values (`running = false`, zero
counters, `randomxModule = null`). -/
def initialWorkerGlobals : WorkerGlobals :=
  { running := false
    totalHashes := 0
    solutionsFound := 0
    cacheReinitCount := 0
    rxInitialized := false }

/-- The `case 'START'` handler of `hash-worker.js`: guarded only by
`if (!running)`; when accepted it sets `running` and zeroes `totalHashes`,
`solutionsFound` and `cacheReinitCount` before spawning `hashingLoop`. -/
def handleStart (st : WorkerGlobals) : WorkerGlobals :=
  if st.running then st
  else { st with
    running := true
    totalHashes := 0
    solutionsFound := 0
    cacheReinitCount := 0 }

/-- The spec's settled non-running states: `Ready` (INIT succeeded, not yet
started) and `Stopped` both are exactly the code states with an initialized
compute primitive and the running flag clear. -/
def readyOrStopped (st : WorkerGlobals) : Prop :=
  st.rxInitialized = true ∧ st.running = false

instance (st : WorkerGlobals) : Decidable (readyOrStopped st) := by
  unfold readyOrStopped; infer_instance

/-! ## `src/lib/coordinator.ts` -/

/-- The payload object of an INIT message. The worker reads the optional
fields `totalWorkers` and `mode` from it; `none` models an absent JS
property (`undefined`). -/
structure InitData where
  workerId : Nat
  totalWorkers : Option Nat
  mode : Option RMode
deriving DecidableEq

/-- The INIT payload `WorkerCoordinator.initialize` actually posts
(coordinator.ts: `worker.postMessage({ type: 'INIT', data: { workerId:
workerInfo.id } })`): only the worker id, no `totalWorkers`, no `mode`. -/
def coordinatorInitData (id : Nat) : InitData :=
  { workerId := id, totalWorkers := none, mode := none }

/-- JS `x || dflt` on an optional number: `undefined` and `0` are falsy. -/
def jsOrNat (v : Option Nat) (dflt : Nat) : Nat :=
  match v with
  | some n => if n = 0 then dflt else n
  | none => dflt

/-- `totalWorkers = data.totalWorkers || 1` in the worker's INIT handler. -/
def workerTotalWorkers (d : InitData) : Nat := jsOrNat d.totalWorkers 1

/-- `const mode = data.mode || 'light'` in the worker's INIT handler. -/
def workerInitMode (d : InitData) : RMode := d.mode.getD RMode.light

/-- The nonce range the worker computes in its INIT handler:
`partitionNonceSpace(workerId, totalWorkers)`. -/
def workerInitRange (d : InitData) : NonceRange :=
  partitionNonceSpace d.workerId (workerTotalWorkers d)

/-- Message types a worker posts back. -/
inductive WMsgType
  | READY
  | ERROR
  | STATS
  | STOPPED
  | INIT_PROGRESS
  | DESTROYED
deriving DecidableEq

/-- An outbound worker message, reduced to the fields `checkReady`
inspects. -/
structure WMsg where
  type : WMsgType
  workerId : Nat
deriving DecidableEq

/-- The per-worker promise inside `WorkerCoordinator.initialize`: its
`checkReady` listener resolves it exactly when a message with
`type === 'READY' && workerId === workerInfo.id` arrives, and on nothing
else. -/
def initPromiseResolves (msgs : List WMsg) (id : Nat) : Bool :=
  msgs.any (fun m => decide (m.type = WMsgType.READY) && decide (m.workerId = id))

/-- `await Promise.all(initPromises)`: `initialize()` returns exactly when
every worker's promise has resolved, given each worker's outbound message
stream (worker `i` owns `streams[i]`). -/
def initializeReturns (streams : List (List WMsg)) : Bool :=
  streams.enum.all (fun p => initPromiseResolves p.2 p.1)

/-- Modelled from the spec: `initialize()` is to "await settlement (Ready or
Error) for every unit"; a single unit counts as settled when its stream
contains a `READY` or an `ERROR` message for it. The code's counterpart is
`initPromiseResolves`. -/
def specUnitSettled (msgs : List WMsg) (id : Nat) : Bool :=
  msgs.any (fun m =>
    (decide (m.type = WMsgType.READY) || decide (m.type = WMsgType.ERROR))
      && decide (m.workerId = id))

/-! ## Arithmetic facts about the nonce partition -/

lemma partition_nonceStart (i n : Nat) :
    (partitionNonceSpace i n).nonceStart = ((i * (MAX_UINT32 / n) : Nat) : Int) := rfl

lemma partition_nonceEnd_last (n i : Nat) (h : i = n - 1) :
    (partitionNonceSpace i n).nonceEnd = (MAX_UINT32 : Int) := by
  simp [partitionNonceSpace, h]

lemma partition_nonceEnd_not_last (n i : Nat) (h : i ≠ n - 1) :
    (partitionNonceSpace i n).nonceEnd = (((i + 1) * (MAX_UINT32 / n) : Nat) : Int) - 1 := by
  simp only [partitionNonceSpace, if_neg h]
  push_cast
  ring

lemma partition_disjoint_lt {n i j : Nat} (hij : i < j) (hj : j < n) {x : Int}
    (hxi : inNonceRange (partitionNonceSpace i n) x)
    (hxj : inNonceRange (partitionNonceSpace j n) x) : False := by
  obtain ⟨h1, h2⟩ := hxi
  obtain ⟨h3, h4⟩ := hxj
  rw [partition_nonceEnd_not_last n i (by omega)] at h2
  rw [partition_nonceStart] at h3
  have hmul : ((i + 1) * (MAX_UINT32 / n) : Nat) ≤ (j * (MAX_UINT32 / n) : Nat) :=
    Nat.mul_le_mul_right _ (by omega)
  have hmul2 : (((i + 1) * (MAX_UINT32 / n) : Nat) : Int) ≤ ((j * (MAX_UINT32 / n) : Nat) : Int) := by
    exact_mod_cast hmul
  linarith

lemma partition_start_le_end {n u : Nat} (hn : 1 ≤ n) (hu : u < n) (hM : n ≤ MAX_UINT32) :
    (partitionNonceSpace u n).nonceStart ≤ (partitionNonceSpace u n).nonceEnd := by
  have hs1 : 1 ≤ MAX_UINT32 / n := (Nat.one_le_div_iff (by omega)).mpr hM
  rw [partition_nonceStart]
  by_cases h : u = n - 1
  · rw [partition_nonceEnd_last n u h]
    have h1 : u * (MAX_UINT32 / n) ≤ n * (MAX_UINT32 / n) :=
      Nat.mul_le_mul_right _ (by omega)
    have h2 : n * (MAX_UINT32 / n) ≤ MAX_UINT32 := by
      rw [mul_comm]; exact Nat.div_mul_le_self _ _
    exact_mod_cast le_trans h1 h2
  · rw [partition_nonceEnd_not_last n u h]
    have h1 : u * (MAX_UINT32 / n) + 1 ≤ (u + 1) * (MAX_UINT32 / n) := by
      have hexp : (u + 1) * (MAX_UINT32 / n) = u * (MAX_UINT32 / n) + MAX_UINT32 / n := by ring
      rw [hexp]
      exact Nat.add_le_add_left hs1 _
    have h2 : ((u * (MAX_UINT32 / n) : Nat) : Int) + 1
        ≤ (((u + 1) * (MAX_UINT32 / n) : Nat) : Int) := by exact_mod_cast h1
    linarith

lemma partition_covers {n : Nat} (hn : 1 ≤ n) {x : Int} (hx0 : 0 ≤ x)
    (hxM : x ≤ (MAX_UINT32 : Int)) :
    ∃ i : Nat, i < n ∧ inNonceRange (partitionNonceSpace i n) x := by
  obtain ⟨t, rfl⟩ : ∃ t : Nat, x = (t : Int) := ⟨x.toNat, (Int.toNat_of_nonneg hx0).symm⟩
  have hxM2 : t ≤ MAX_UINT32 := by exact_mod_cast hxM
  by_cases hs0 : MAX_UINT32 / n = 0
  · refine ⟨n - 1, by omega, ?_, ?_⟩
    · rw [partition_nonceStart, hs0, Nat.mul_zero]
      exact_mod_cast Nat.zero_le t
    · rw [partition_nonceEnd_last n (n - 1) rfl]
      exact hxM
  · obtain ⟨q, rem, h1, h2⟩ :
        ∃ q rem, t = q * (MAX_UINT32 / n) + rem ∧ rem < MAX_UINT32 / n :=
      ⟨t / (MAX_UINT32 / n), t % (MAX_UINT32 / n),
        by rw [mul_comm]; exact (Nat.div_add_mod t _).symm,
        Nat.mod_lt _ (Nat.pos_of_ne_zero hs0)⟩
    by_cases hq : q < n - 1
    · refine ⟨q, by omega, ?_, ?_⟩
      · rw [partition_nonceStart]
        exact_mod_cast Nat.le.intro h1.symm
      · rw [partition_nonceEnd_not_last n q (by omega)]
        have h3 : t < (q + 1) * (MAX_UINT32 / n) :=
          calc t = q * (MAX_UINT32 / n) + rem := h1
            _ < q * (MAX_UINT32 / n) + MAX_UINT32 / n := Nat.add_lt_add_left h2 _
            _ = (q + 1) * (MAX_UINT32 / n) := by ring
        have h4 : (t : Int) < (((q + 1) * (MAX_UINT32 / n) : Nat) : Int) := by exact_mod_cast h3
        linarith
    · refine ⟨n - 1, by omega, ?_, ?_⟩
      · rw [partition_nonceStart]
        have h3 : (n - 1) * (MAX_UINT32 / n) ≤ q * (MAX_UINT32 / n) :=
          Nat.mul_le_mul_right _ (by omega)
        have h4 : q * (MAX_UINT32 / n) ≤ t := Nat.le.intro h1.symm
        exact_mod_cast le_trans h3 h4
      · rw [partition_nonceEnd_last n (n - 1) rfl]
        exact hxM

/-! ## Claim theorems -/

/-- Claim C1: for every `totalUnits ≥ 1` and `unitId < totalUnits`,
`partitionNonceSpace` yields `size = ⌊(2^32−1)/totalUnits⌋`,
`start = unitId·size`, `end = (unitId+1)·size − 1` for all but the last unit
and `end = 2^32−1` for the last one; the ranges are contiguous, pairwise
non-overlapping and cover exactly `[0, 2^32−1]`. -/
theorem partitionNonceSpace_correct (n : Nat) (hn : 1 ≤ n) :
    (∀ i : Nat, i < n →
      (partitionNonceSpace i n).nonceStart = ((i * (MAX_UINT32 / n) : Nat) : Int) ∧
      (i ≠ n - 1 →
        (partitionNonceSpace i n).nonceEnd = (((i + 1) * (MAX_UINT32 / n) : Nat) : Int) - 1) ∧
      (i = n - 1 → (partitionNonceSpace i n).nonceEnd = (MAX_UINT32 : Int))) ∧
    (∀ i : Nat, i + 1 < n →
      (partitionNonceSpace (i + 1) n).nonceStart = (partitionNonceSpace i n).nonceEnd + 1) ∧
    (∀ i j : Nat, i < n → j < n → i ≠ j → ∀ x : Int,
      inNonceRange (partitionNonceSpace i n) x →
      ¬ inNonceRange (partitionNonceSpace j n) x) ∧
    (∀ x : Int, 0 ≤ x → x ≤ (MAX_UINT32 : Int) →
      ∃ i : Nat, i < n ∧ inNonceRange (partitionNonceSpace i n) x) := by
  refine ⟨?_, ?_, ?_, ?_⟩
  · intro i _
    exact ⟨partition_nonceStart i n,
      fun h => partition_nonceEnd_not_last n i h,
      fun h => partition_nonceEnd_last n i h⟩
  · intro i hcon
    rw [partition_nonceStart, partition_nonceEnd_not_last n i (by omega)]
    push_cast
    ring
  · intro i j hi hj hij x hxi hxj
    rcases Nat.lt_or_ge i j with h | h
    · exact partition_disjoint_lt h hj hxi hxj
    · exact partition_disjoint_lt (by omega) hi hxj hxi
  · exact fun x hx0 hxM => partition_covers hn hx0 hxM

/-- Witness for C1 at `totalUnits = 4`. -/
theorem partitionNonceSpace_correct_witness :
    1 ≤ 4 ∧
    ((∀ i : Nat, i < 4 →
      (partitionNonceSpace i 4).nonceStart = ((i * (MAX_UINT32 / 4) : Nat) : Int) ∧
      (i ≠ 4 - 1 →
        (partitionNonceSpace i 4).nonceEnd = (((i + 1) * (MAX_UINT32 / 4) : Nat) : Int) - 1) ∧
      (i = 4 - 1 → (partitionNonceSpace i 4).nonceEnd = (MAX_UINT32 : Int))) ∧
    (∀ i : Nat, i + 1 < 4 →
      (partitionNonceSpace (i + 1) 4).nonceStart = (partitionNonceSpace i 4).nonceEnd + 1) ∧
    (∀ i j : Nat, i < 4 → j < 4 → i ≠ j → ∀ x : Int,
      inNonceRange (partitionNonceSpace i 4) x →
      ¬ inNonceRange (partitionNonceSpace j 4) x) ∧
    (∀ x : Int, 0 ≤ x → x ≤ (MAX_UINT32 : Int) →
      ∃ i : Nat, i < 4 ∧ inNonceRange (partitionNonceSpace i 4) x)) :=
  ⟨by omega, partitionNonceSpace_correct 4 (by omega)⟩

/-- Claim C2, evaluated on the code at the failing input: the INIT payload
the coordinator posts carries only the worker id — `totalWorkers` and `mode`
are absent — so unit 1 of a 4-thread pool falls back to `totalWorkers = 1`
and `light` mode and computes `partitionNonceSpace(1, 1) =
[4294967295, 8589934589]` (not even a sub-range of the 32-bit nonce space),
instead of the partition for 4 units. -/
theorem coordinatorInit_omits_totalWorkers :
    (coordinatorInitData 1).totalWorkers = none ∧
    (coordinatorInitData 1).mode = none ∧
    workerTotalWorkers (coordinatorInitData 1) = 1 ∧
    workerInitMode (coordinatorInitData 1) = RMode.light ∧
    workerInitRange (coordinatorInitData 1) =
      { nonceStart := 4294967295, nonceEnd := 8589934589 } ∧
    workerInitRange (coordinatorInitData 1) ≠ partitionNonceSpace 1 4 := by
  decide

/-- Claim C3, evaluated on the code at the failing input: the per-unit
promise inside `initialize()` resolves only on a `READY` message, so a unit
whose INIT fails (it posts `ERROR` and never `READY`) leaves the joint
`Promise.all` — and hence `initialize()` — pending forever, while under the
spec's settlement condition (Ready or Error) the unit would count as
settled. -/
theorem initialize_pending_on_unit_error :
    initPromiseResolves [{ type := WMsgType.ERROR, workerId := 0 }] 0 = false ∧
    initializeReturns [[{ type := WMsgType.ERROR, workerId := 0 }]] = false ∧
    specUnitSettled [{ type := WMsgType.ERROR, workerId := 0 }] 0 = true ∧
    initPromiseResolves [{ type := WMsgType.READY, workerId := 0 }] 0 = true ∧
    initializeReturns [[{ type := WMsgType.READY, workerId := 0 }]] = true := by
  decide

/-- Claim C4 counterexample: in the WASM worker a malformed digest does not
let the loop continue — the `BigInt` parse failure propagates, the batch
stops at the malformed digest (the following digest is never processed) and
the session ends in the Error state. -/
theorem malformedDigest_aborts_session :
    runSession
      { nonce := 0, nonceStart := 0, nonceEnd := 4294967295,
        totalHashes := 0, solutionsFound := 0, cacheReinitCount := 0,
        lastCacheReinit := 0, seed := "seed0",
        blockTemplate :=
          { version := 1,
            prevHash := "0000000000000000000000000000000000000000000000000000000000000000",
            merkleRoot := "ff", timestamp := 0, nonce := 0 } }
      ["ab", "zz", "cd"] = SessionOutcome.errored "zz" := by
  decide

/-- Claim C4 (amended): in the WASM worker (`hash-worker.js`) a digest that
fails to parse as hex raises out of the Running loop and ends the session in
Error like any other exception — nothing is counted and no further digest is
processed; only the WebGPU worker tolerates it: its loop body catches the
parse failure, logs it without counting anything, skips the difficulty
comparison and continues with the next nonce. -/
theorem malformedDigest_semantics (st : LoopState) (digest : String)
    (hbad : jsBigIntOx digest = none) :
    hashStep st digest = Except.error digest ∧
    (∀ rest : List String,
      runSession st (digest :: rest) = SessionOutcome.errored digest) ∧
    hashStepGpu st digest =
      { st with
        blockTemplate := st.blockTemplate.setNonce st.nonce
        nonce := if st.nonceEnd ≤ st.nonce + 1 then st.nonceStart else st.nonce + 1
        totalHashes := st.totalHashes + 1 } := by
  refine ⟨?_, ?_, ?_⟩
  · simp [hashStep, hbad]
  · intro rest
    have h0 : hashStep st digest = Except.error digest := by simp [hashStep, hbad]
    have h1 : hashBatch st (digest :: rest) = Except.error digest := by
      show List.foldlM hashStep st (digest :: rest) = Except.error digest
      simp only [List.foldlM]
      rw [h0]
      rfl
    simp [runSession, h1]
  · simp [hashStepGpu, hbad]

/-- Witness for C4 at the malformed digest `"zz"`. -/
theorem malformedDigest_semantics_witness :
    jsBigIntOx "zz" = none ∧
    (hashStep
        { nonce := 7, nonceStart := 0, nonceEnd := 4294967295,
          totalHashes := 5, solutionsFound := 2, cacheReinitCount := 1,
          lastCacheReinit := 0, seed := "seed1",
          blockTemplate :=
            { version := 1, prevHash := "00", merkleRoot := "ff",
              timestamp := 0, nonce := 6 } } "zz" = Except.error "zz" ∧
      (∀ rest : List String,
        runSession
          { nonce := 7, nonceStart := 0, nonceEnd := 4294967295,
            totalHashes := 5, solutionsFound := 2, cacheReinitCount := 1,
            lastCacheReinit := 0, seed := "seed1",
            blockTemplate :=
              { version := 1, prevHash := "00", merkleRoot := "ff",
                timestamp := 0, nonce := 6 } } ("zz" :: rest) =
          SessionOutcome.errored "zz") ∧
      hashStepGpu
        { nonce := 7, nonceStart := 0, nonceEnd := 4294967295,
          totalHashes := 5, solutionsFound := 2, cacheReinitCount := 1,
          lastCacheReinit := 0, seed := "seed1",
          blockTemplate :=
            { version := 1, prevHash := "00", merkleRoot := "ff",
              timestamp := 0, nonce := 6 } } "zz" =
        { nonce := (8 : Int), nonceStart := 0, nonceEnd := 4294967295,
          totalHashes := 6, solutionsFound := 2, cacheReinitCount := 1,
          lastCacheReinit := 0, seed := "seed1",
          blockTemplate :=
            { version := 1, prevHash := "00", merkleRoot := "ff",
              timestamp := 0, nonce := 7 } }) :=
  ⟨by decide, by
    have h := malformedDigest_semantics
      { nonce := 7, nonceStart := 0, nonceEnd := 4294967295,
        totalHashes := 5, solutionsFound := 2, cacheReinitCount := 1,
        lastCacheReinit := 0, seed := "seed1",
        blockTemplate :=
          { version := 1, prevHash := "00", merkleRoot := "ff",
            timestamp := 0, nonce := 6 } } "zz" (by decide)
    refine ⟨h.1, h.2.1, ?_⟩
    rw [h.2.2]
    decide⟩

/-- Claim C5 counterexample: the worker's fresh state (before any INIT —
`running = false`, no initialized compute primitive) is neither Ready nor
Stopped, yet START is accepted there: it flips `running` and is not a
no-op. -/
theorem handleStart_accepted_when_uninitialized :
    ¬ readyOrStopped initialWorkerGlobals ∧
    handleStart initialWorkerGlobals ≠ initialWorkerGlobals ∧
    (handleStart initialWorkerGlobals).running = true := by
  decide

/-- Claim C5 (amended): START is a no-op exactly when the `running` flag is
already set; in every non-running state — Ready and Stopped, but equally the
uninitialized or destroyed states — it is accepted, transitions the unit to
Running and zeroes `totalHashes`, `solutionsFound` and `cacheReinitCount`
before the loop starts (everything else unchanged). -/
theorem handleStart_spec (st : WorkerGlobals) :
    (handleStart st = st ↔ st.running = true) ∧
    (st.running = false →
      handleStart st =
        { st with
          running := true
          totalHashes := 0
          solutionsFound := 0
          cacheReinitCount := 0 }) ∧
    (readyOrStopped st →
      (handleStart st).running = true ∧
      (handleStart st).totalHashes = 0 ∧
      (handleStart st).solutionsFound = 0 ∧
      (handleStart st).cacheReinitCount = 0 ∧
      (handleStart st).rxInitialized = st.rxInitialized) := by
  refine ⟨⟨?_, ?_⟩, ?_, ?_⟩
  · intro h
    by_contra hr
    have hr2 : st.running = false := by
      cases hrc : st.running
      · rfl
      · exact absurd hrc hr
    rw [handleStart, hr2] at h
    simp at h
    have h3 := congrArg WorkerGlobals.running h
    simp [hr2] at h3
  · intro h
    simp [handleStart, h]
  · intro h
    simp [handleStart, h]
  · intro h
    obtain ⟨h1, h2⟩ := h
    simp [handleStart, h2]

/-- Witness for C5 at a Ready state. -/
theorem handleStart_spec_witness :
    let stR : WorkerGlobals :=
      { running := false, totalHashes := 9, solutionsFound := 3,
        cacheReinitCount := 2, rxInitialized := true }
    (handleStart stR = stR ↔ stR.running = true) ∧
    (stR.running = false →
      handleStart stR =
        { stR with
          running := true
          totalHashes := 0
          solutionsFound := 0
          cacheReinitCount := 0 }) ∧
    (readyOrStopped stR →
      (handleStart stR).running = true ∧
      (handleStart stR).totalHashes = 0 ∧
      (handleStart stR).solutionsFound = 0 ∧
      (handleStart stR).cacheReinitCount = 0 ∧
      (handleStart stR).rxInitialized = stR.rxInitialized) :=
  handleStart_spec _

/-! ## The hashing loop and the nonce counter -/

lemma hashBatch_nil (st : LoopState) : hashBatch st [] = Except.ok st := rfl

lemma hashBatch_cons_ok {st st1 : LoopState} {d : String} (ds : List String)
    (hs : hashStep st d = Except.ok st1) :
    hashBatch st (d :: ds) = hashBatch st1 ds := by
  show List.foldlM hashStep st (d :: ds) = _
  simp only [List.foldlM]
  rw [hs]
  rfl

lemma hashBatch_cons_err {st : LoopState} {d e : String} (ds : List String)
    (hs : hashStep st d = Except.error e) :
    hashBatch st (d :: ds) = Except.error e := by
  show List.foldlM hashStep st (d :: ds) = _
  simp only [List.foldlM]
  rw [hs]
  rfl

/-- A successful `hashStep` is exactly the record update of the source: the
template receives the current counter, the solution counter is bumped on a
sub-target digest, the counter advances by one and wraps at the range end,
and `totalHashes` is bumped. -/
lemma hashStep_ok {st st' : LoopState} {d : String}
    (h : hashStep st d = Except.ok st') :
    ∃ v, jsBigIntOx d = some v ∧
      st' = { st with
        blockTemplate := st.blockTemplate.setNonce st.nonce
        solutionsFound :=
          if v < difficultyTarget then st.solutionsFound + 1 else st.solutionsFound
        nonce := if st.nonceEnd ≤ st.nonce + 1 then st.nonceStart else st.nonce + 1
        totalHashes := st.totalHashes + 1 } := by
  unfold hashStep at h
  cases hj : jsBigIntOx d with
  | none => rw [hj] at h; exact absurd h (by simp)
  | some v =>
    rw [hj] at h
    simp only [Except.ok.injEq] at h
    exact ⟨v, rfl, h.symm⟩

/-- Inductive invariant of the inner loop: the partition bounds never
change, the counter stays within them, and the template only ever receives
in-range nonces. -/
lemma hashBatch_inv :
    ∀ (ds : List String) (st st' : LoopState),
      hashBatch st ds = Except.ok st' →
      st.nonceStart ≤ st.nonceEnd →
      st.nonceStart ≤ st.nonce → st.nonce ≤ st.nonceEnd →
      st'.nonceStart = st.nonceStart ∧ st'.nonceEnd = st.nonceEnd ∧
      st'.nonceStart ≤ st'.nonce ∧ st'.nonce ≤ st'.nonceEnd ∧
      (ds ≠ [] →
        st.nonceStart ≤ st'.blockTemplate.nonce ∧
        st'.blockTemplate.nonce ≤ st.nonceEnd) := by
  intro ds
  induction ds with
  | nil =>
    intro st st' h hle h1 h2
    rw [hashBatch_nil] at h
    injection h with h
    subst h
    exact ⟨rfl, rfl, h1, h2, fun hne => absurd rfl hne⟩
  | cons d ds ih =>
    intro st st' h hle h1 h2
    cases hs : hashStep st d with
    | error e => rw [hashBatch_cons_err ds hs] at h; exact absurd h (by simp)
    | ok st1 =>
      rw [hashBatch_cons_ok ds hs] at h
      obtain ⟨v, hv, rfl⟩ := hashStep_ok hs
      have hadv1 :
          st.nonceStart ≤
            (if st.nonceEnd ≤ st.nonce + 1 then st.nonceStart else st.nonce + 1) := by
        split <;> omega
      have hadv2 :
          (if st.nonceEnd ≤ st.nonce + 1 then st.nonceStart else st.nonce + 1) ≤
            st.nonceEnd := by
        split <;> omega
      obtain ⟨e1, e2, e3, e4, e5⟩ := ih _ _ h hle hadv1 hadv2
      dsimp only at e1 e2 e5
      refine ⟨e1, e2, e3, e4, fun _ => ?_⟩
      cases ds with
      | nil =>
        rw [hashBatch_nil] at h
        injection h with h
        subst h
        exact ⟨h1, h2⟩
      | cons d2 ds2 => exact e5 (by simp)

/-- Claim C6: starting from the INIT state (counter at the unit's range
start), any successful run of the Running loop keeps the counter inside the
unit's own partition, every nonce written into the block template is inside
the partition (hence, the ranges being pairwise disjoint, never inside
another unit's partition), and each further step writes the current counter
and then advances it by exactly one, wrapping back to the range start when
it reaches the range end. -/
theorem nonces_stay_in_partition (n u : Nat) (hn : 1 ≤ n) (hu : u < n)
    (hM : n ≤ MAX_UINT32) (st₀ : LoopState)
    (hstart : st₀.nonceStart = (partitionNonceSpace u n).nonceStart)
    (hend : st₀.nonceEnd = (partitionNonceSpace u n).nonceEnd)
    (hnonce : st₀.nonce = st₀.nonceStart)
    (ds : List String) (st' : LoopState)
    (hrun : hashBatch st₀ ds = Except.ok st') :
    inNonceRange (partitionNonceSpace u n) st'.nonce ∧
    (ds ≠ [] → inNonceRange (partitionNonceSpace u n) st'.blockTemplate.nonce) ∧
    (∀ j : Nat, j < n → j ≠ u →
      ¬ inNonceRange (partitionNonceSpace j n) st'.nonce) ∧
    st'.nonceStart = st₀.nonceStart ∧ st'.nonceEnd = st₀.nonceEnd ∧
    (∀ d st₁, hashStep st' d = Except.ok st₁ →
      st₁.blockTemplate.nonce = st'.nonce ∧
      st₁.nonce =
        if st'.nonceEnd ≤ st'.nonce + 1 then st'.nonceStart else st'.nonce + 1) := by
  have hle : st₀.nonceStart ≤ st₀.nonceEnd := by
    rw [hstart, hend]; exact partition_start_le_end hn hu hM
  obtain ⟨e1, e2, e3, e4, e5⟩ :=
    hashBatch_inv ds st₀ st' hrun hle (le_of_eq hnonce.symm) (hnonce ▸ hle)
  have hmem : inNonceRange (partitionNonceSpace u n) st'.nonce := by
    constructor
    · rw [← hstart, ← e1]; exact e3
    · rw [← hend, ← e2]; exact e4
  refine ⟨hmem, ?_, ?_, e1, e2, ?_⟩
  · intro hne
    obtain ⟨f1, f2⟩ := e5 hne
    exact ⟨hstart ▸ f1, hend ▸ f2⟩
  · intro j hj hju hmemj
    rcases Nat.lt_or_ge j u with hlt | hge
    · exact partition_disjoint_lt hlt hu hmemj hmem
    · exact partition_disjoint_lt (by omega) hj hmem hmemj
  · intro d st₁ hstep
    obtain ⟨v, hv, rfl⟩ := hashStep_ok hstep
    exact ⟨rfl, rfl⟩

/-- Witness for C6: unit 1 of 4, one digest hashed. -/
theorem nonces_stay_in_partition_witness :
    1 ≤ 4 ∧ 1 < 4 ∧ 4 ≤ MAX_UINT32 ∧
    (let st₀ : LoopState :=
      { nonce := 1073741823, nonceStart := 1073741823, nonceEnd := 2147483645,
        totalHashes := 0, solutionsFound := 0, cacheReinitCount := 0,
        lastCacheReinit := 0, seed := "seed2",
        blockTemplate :=
          { version := 1, prevHash := "00", merkleRoot := "ff",
            timestamp := 0, nonce := 0 } }
    let st1 : LoopState :=
      { nonce := 1073741824, nonceStart := 1073741823, nonceEnd := 2147483645,
        totalHashes := 1, solutionsFound := 1, cacheReinitCount := 0,
        lastCacheReinit := 0, seed := "seed2",
        blockTemplate :=
          { version := 1, prevHash := "00", merkleRoot := "ff",
            timestamp := 0, nonce := 1073741823 } }
    inNonceRange (partitionNonceSpace 1 4) st1.nonce ∧
    ((["ab"] : List String) ≠ [] →
      inNonceRange (partitionNonceSpace 1 4) st1.blockTemplate.nonce) ∧
    (∀ j : Nat, j < 4 → j ≠ 1 →
      ¬ inNonceRange (partitionNonceSpace j 4) st1.nonce) ∧
    st1.nonceStart = st₀.nonceStart ∧ st1.nonceEnd = st₀.nonceEnd ∧
    (∀ d st₂, hashStep st1 d = Except.ok st₂ →
      st₂.blockTemplate.nonce = st1.nonce ∧
      st₂.nonce =
        if st1.nonceEnd ≤ st1.nonce + 1 then st1.nonceStart else st1.nonce + 1)) :=
  ⟨by omega, by omega, by decide, by
    exact nonces_stay_in_partition 4 1 (by omega) (by omega) (by decide) _
      (by decide) (by decide) (by decide) ["ab"] _ (by rfl)⟩

/-- Counter bookkeeping of a successful inner batch: one hash adds one to
`totalHashes`; the batch never touches `cacheReinitCount`,
`lastCacheReinit` or the seed. -/
lemma hashBatch_counters :
    ∀ (ds : List String) (st st' : LoopState),
      hashBatch st ds = Except.ok st' →
      st'.totalHashes = st.totalHashes + ds.length ∧
      st'.cacheReinitCount = st.cacheReinitCount ∧
      st'.lastCacheReinit = st.lastCacheReinit ∧
      st'.seed = st.seed := by
  intro ds
  induction ds with
  | nil =>
    intro st st' h
    rw [hashBatch_nil] at h
    injection h with h
    subst h
    exact ⟨rfl, rfl, rfl, rfl⟩
  | cons d ds ih =>
    intro st st' h
    cases hs : hashStep st d with
    | error e => rw [hashBatch_cons_err ds hs] at h; exact absurd h (by simp)
    | ok st1 =>
      rw [hashBatch_cons_ok ds hs] at h
      obtain ⟨v, hv, rfl⟩ := hashStep_ok hs
      obtain ⟨e1, e2, e3, e4⟩ := ih _ _ h
      dsimp only at e1 e2 e3 e4
      refine ⟨?_, e2, e3, e4⟩
      simp only [List.length_cons]
      omega

/-- Claim C8: when 120 000 ms of Running time have elapsed, the cache
rotation re-inits the primitive with the fresh seed, bumps
`cacheReinitCount` by exactly 1, refreshes the template's timestamp to the
current time, leaves `totalHashes`, `solutionsFound` and the nonce counter
untouched, and the unit resumes hashing in the same outer iteration — the
following batch builds on the unreset counters. -/
theorem cacheRotation_effect (st : LoopState) (now : Nat) (newSeed : String)
    (nowSec : Int) (ds : List String)
    (hfire : cacheReinitInterval ≤ now - st.lastCacheReinit) :
    (cacheReinitCheck st now newSeed nowSec).cacheReinitCount =
      st.cacheReinitCount + 1 ∧
    (cacheReinitCheck st now newSeed nowSec).totalHashes = st.totalHashes ∧
    (cacheReinitCheck st now newSeed nowSec).solutionsFound = st.solutionsFound ∧
    (cacheReinitCheck st now newSeed nowSec).blockTemplate.timestamp = nowSec ∧
    (cacheReinitCheck st now newSeed nowSec).seed = newSeed ∧
    (cacheReinitCheck st now newSeed nowSec).lastCacheReinit = now ∧
    (cacheReinitCheck st now newSeed nowSec).nonce = st.nonce ∧
    outerIteration st now newSeed nowSec ds =
      hashBatch (cacheReinitCheck st now newSeed nowSec) ds ∧
    (∀ st', hashBatch (cacheReinitCheck st now newSeed nowSec) ds = Except.ok st' →
      st'.totalHashes = st.totalHashes + ds.length ∧
      st'.cacheReinitCount = st.cacheReinitCount + 1 ∧
      st'.seed = newSeed) := by
  have h1 : cacheReinitCheck st now newSeed nowSec =
      { st with
        seed := newSeed
        lastCacheReinit := now
        cacheReinitCount := st.cacheReinitCount + 1
        blockTemplate := st.blockTemplate.updateTimestamp nowSec } := by
    unfold cacheReinitCheck
    rw [if_pos hfire]
  refine ⟨by rw [h1], by rw [h1], by rw [h1], by rw [h1]; rfl, by rw [h1],
    by rw [h1], by rw [h1], rfl, ?_⟩
  intro st' hb
  obtain ⟨e1, e2, e3, e4⟩ := hashBatch_counters ds _ st' hb
  rw [h1] at e1 e2 e4
  exact ⟨e1, e2, e4⟩

/-- Witness for C8: a rotation that fires at `now = 120000` followed by one
hash. -/
theorem cacheRotation_effect_witness :
    cacheReinitInterval ≤ 120000 - 0 ∧
    (let st : LoopState :=
      { nonce := 5, nonceStart := 0, nonceEnd := 4294967295,
        totalHashes := 11, solutionsFound := 4, cacheReinitCount := 2,
        lastCacheReinit := 0, seed := "seed3",
        blockTemplate :=
          { version := 1, prevHash := "00", merkleRoot := "ff",
            timestamp := 7, nonce := 4 } }
    (cacheReinitCheck st 120000 "seed4" 99).cacheReinitCount =
      st.cacheReinitCount + 1 ∧
    (cacheReinitCheck st 120000 "seed4" 99).totalHashes = st.totalHashes ∧
    (cacheReinitCheck st 120000 "seed4" 99).solutionsFound = st.solutionsFound ∧
    (cacheReinitCheck st 120000 "seed4" 99).blockTemplate.timestamp = 99 ∧
    (cacheReinitCheck st 120000 "seed4" 99).seed = "seed4" ∧
    (cacheReinitCheck st 120000 "seed4" 99).lastCacheReinit = 120000 ∧
    (cacheReinitCheck st 120000 "seed4" 99).nonce = st.nonce ∧
    outerIteration st 120000 "seed4" 99 ["ab"] =
      hashBatch (cacheReinitCheck st 120000 "seed4" 99) ["ab"] ∧
    (∀ st', hashBatch (cacheReinitCheck st 120000 "seed4" 99) ["ab"] =
        Except.ok st' →
      st'.totalHashes = st.totalHashes + (["ab"] : List String).length ∧
      st'.cacheReinitCount = st.cacheReinitCount + 1 ∧
      st'.seed = "seed4")) :=
  ⟨by decide, by
    exact cacheRotation_effect _ 120000 "seed4" 99 ["ab"] (by decide)⟩

/-! ## The 76-byte serializer -/

lemma hexToBytes_length (s : String) : (hexToBytes s).length = 32 := by
  simp [hexToBytes]

/-- The serializer's shift-and-mask bytes are the little-endian base-256
digits of any value already in `[0, 2^32)`. -/
lemma jsByte_bytes (x : Nat) (hx : x < 4294967296) :
    jsByte (x : Int) 0 = x % 256 ∧ jsByte (x : Int) 8 = x / 256 % 256 ∧
    jsByte (x : Int) 16 = x / 65536 % 256 ∧
    jsByte (x : Int) 24 = x / 16777216 % 256 := by
  unfold jsByte jsShr toInt32
  norm_num
  refine ⟨?_, ?_, ?_, ?_⟩ <;> split_ifs <;> omega

/-- Claim C7: serializing after `setNonce(x)` yields a fresh 76-byte buffer
laid out as version `[0:4]` LE ‖ timestamp `[4:8]` LE ‖ prevHash `[8:40]` ‖
nonce `[40:44]` LE ‖ merkleRoot `[44:76]`, with no padding; the nonce bytes
little-endian-decode back to `x`. -/
theorem serialize_layout (vn tn x : Nat) (pv mr : String)
    (hv : vn < 4294967296) (ht : tn < 4294967296) (hx : x < 4294967296) :
    let hdr : BlockHeader :=
      { version := (vn : Int), prevHash := pv, merkleRoot := mr,
        timestamp := (tn : Int), nonce := 0 }
    let b := (hdr.setNonce (x : Int)).serialize
    b.length = 76 ∧
    b.take 4 = [vn % 256, vn / 256 % 256, vn / 65536 % 256, vn / 16777216 % 256] ∧
    (b.drop 4).take 4 =
      [tn % 256, tn / 256 % 256, tn / 65536 % 256, tn / 16777216 % 256] ∧
    (b.drop 8).take 32 = hexToBytes pv ∧
    (b.drop 40).take 4 =
      [x % 256, x / 256 % 256, x / 65536 % 256, x / 16777216 % 256] ∧
    b.drop 44 = hexToBytes mr ∧
    b.drop 76 = [] ∧
    x % 256 + 256 * (x / 256 % 256) + 65536 * (x / 65536 % 256)
      + 16777216 * (x / 16777216 % 256) = x := by
  intro hdr b
  obtain ⟨hv0, hv1, hv2, hv3⟩ := jsByte_bytes vn hv
  obtain ⟨ht0, ht1, ht2, ht3⟩ := jsByte_bytes tn ht
  obtain ⟨hx0, hx1, hx2, hx3⟩ := jsByte_bytes x hx
  have hb : b =
      [jsByte (vn : Int) 0, jsByte (vn : Int) 8, jsByte (vn : Int) 16,
        jsByte (vn : Int) 24]
      ++ ([jsByte (tn : Int) 0, jsByte (tn : Int) 8, jsByte (tn : Int) 16,
        jsByte (tn : Int) 24]
      ++ (hexToBytes pv
      ++ ([jsByte (x : Int) 0, jsByte (x : Int) 8, jsByte (x : Int) 16,
        jsByte (x : Int) 24]
      ++ hexToBytes mr))) := rfl
  refine ⟨?_, ?_, ?_, ?_, ?_, ?_, ?_, by omega⟩
  · rw [hb]
    simp [hexToBytes_length]
  · rw [hb, List.take_left' (by rfl), hv0, hv1, hv2, hv3]
  · rw [hb, List.drop_left' (by rfl), List.take_left' (by rfl),
      ht0, ht1, ht2, ht3]
  · rw [hb, ← List.append_assoc, List.drop_left' (by simp),
      List.take_left' (hexToBytes_length pv)]
  · rw [hb, ← List.append_assoc, ← List.append_assoc,
      List.drop_left' (by simp [hexToBytes_length]),
      List.take_left' (by rfl), hx0, hx1, hx2, hx3]
  · rw [hb, ← List.append_assoc, ← List.append_assoc, ← List.append_assoc,
      List.drop_left' (by simp [hexToBytes_length])]
  · rw [hb]
    refine List.drop_eq_nil_of_le ?_
    simp [hexToBytes_length]

/-- Witness for C7 at `version 1`, `timestamp 1700000000`,
`nonce 3735928559`. -/
theorem serialize_layout_witness :
    1 < 4294967296 ∧ 1700000000 < 4294967296 ∧ 3735928559 < 4294967296 ∧
    (let hdr : BlockHeader :=
      { version := ((1 : Nat) : Int), prevHash := "aa", merkleRoot := "bb",
        timestamp := ((1700000000 : Nat) : Int), nonce := 0 }
    let b := (hdr.setNonce ((3735928559 : Nat) : Int)).serialize
    b.length = 76 ∧
    b.take 4 = [1 % 256, 1 / 256 % 256, 1 / 65536 % 256, 1 / 16777216 % 256] ∧
    (b.drop 4).take 4 =
      [1700000000 % 256, 1700000000 / 256 % 256, 1700000000 / 65536 % 256,
        1700000000 / 16777216 % 256] ∧
    (b.drop 8).take 32 = hexToBytes "aa" ∧
    (b.drop 40).take 4 =
      [3735928559 % 256, 3735928559 / 256 % 256, 3735928559 / 65536 % 256,
        3735928559 / 16777216 % 256] ∧
    b.drop 44 = hexToBytes "bb" ∧
    b.drop 76 = [] ∧
    3735928559 % 256 + 256 * (3735928559 / 256 % 256)
      + 65536 * (3735928559 / 65536 % 256)
      + 16777216 * (3735928559 / 16777216 % 256) = 3735928559) :=
  ⟨by omega, by omega, by omega,
    serialize_layout 1 1700000000 3735928559 "aa" "bb"
      (by omega) (by omega) (by omega)⟩

/-! ## Normalization behaviour of `hexToBytes` -/

lemma padEnd64_length (l : List Char) : 64 ≤ (padEnd64 l).length := by
  unfold padEnd64
  simp
  omega

lemma padEnd64_of_le (l : List Char) (h : 64 ≤ l.length) : padEnd64 l = l := by
  unfold padEnd64
  have h0 : 64 - l.length = 0 := by omega
  rw [h0]
  simp

lemma strip0x_append (A B : List Char) (h : 2 ≤ A.length) :
    strip0x (A ++ B) = strip0x A ++ B := by
  unfold strip0x
  rw [List.take_append_of_le_length h]
  split_ifs with hc
  · rw [List.drop_append_of_le_length h]
  · rfl

lemma strip0x_length_le (A : List Char) : (strip0x A).length ≤ A.length := by
  unfold strip0x
  split_ifs
  · simp
  · exact le_refl _

lemma stripSpaces_append (A B : List Char) :
    stripSpaces (A ++ B) = stripSpaces A ++ stripSpaces B := by
  unfold stripSpaces
  rw [List.filter_append]

lemma stripSpaces_length_le (A : List Char) : (stripSpaces A).length ≤ A.length :=
  List.length_filter_le _ _

lemma pair_take_of_front (S T : List Char) (k : Nat) (h : k + 2 ≤ S.length) :
    (((S ++ T).drop k).take 2) = ((S.drop k).take 2) := by
  rw [List.drop_append_of_le_length (by omega)]
  rw [List.take_append_of_le_length (by simp; omega)]

lemma strip0x_append_zero (A : List Char) :
    strip0x (A ++ ['0']) = strip0x A ++ ['0'] := by
  match A with
  | [] => rfl
  | [a] =>
    show strip0x [a, '0'] = strip0x [a] ++ ['0']
    unfold strip0x
    have h1 : ¬ ([a, '0'].take 2 = ['0', 'x']) := by simp
    have h2 : ¬ ([a].take 2 = ['0', 'x']) := by simp
    rw [if_neg h1, if_neg h2]
    rfl
  | a :: b :: rest => exact strip0x_append _ _ (by simp)

lemma padEnd64_append_zero (l : List Char) (h : l.length < 64) :
    padEnd64 (l ++ ['0']) = padEnd64 l := by
  unfold padEnd64
  rw [List.length_append, List.append_assoc]
  have h1 : (64 - l.length) = (64 - (l.length + 1)) + 1 := by omega
  rw [h1, List.replicate_succ]
  rfl

/-- `parseInt(·,16)` on a group whose first character is not a hex digit
(hence not `'0'`, so no `0x` marker either) yields `NaN`. -/
lemma parseHexBody_none (c : Char) (r : List Char)
    (hc : (hexDigitVal? c).isSome = false) (hc0 : c ≠ '0') :
    parseHexBody (c :: r) = none := by
  unfold parseHexBody
  have hnot0x :
      ¬ ((c :: r).take 2 = ['0', 'x'] ∨ (c :: r).take 2 = ['0', 'X']) := by
    rintro (hbad | hbad) <;>
      · have hchead : c = '0' := by
          have h3 := congrArg (fun l => l.headD ' ') hbad
          simpa using h3
        exact hc0 hchead
  rw [if_neg hnot0x]
  have hwhile : takeHexDigits (c :: r) = [] := by
    unfold takeHexDigits
    rw [List.takeWhile_cons, hc]
    rfl
  show (match takeHexDigits (c :: r) with
    | [] => (none : Option Nat)
    | ds => some (hexDigitsVal ds)) = none
  rw [hwhile]

lemma jsParseInt16_none (c : Char) (r : List Char) (hns : isJsSpace c = false)
    (hc : (hexDigitVal? c).isSome = false) (hplus : c ≠ '+')
    (hminus : c ≠ '-') : jsParseInt16 (c :: r) = none := by
  have hc0 : c ≠ '0' := by
    intro h0
    rw [h0] at hc
    simp [hexDigitVal?] at hc
  unfold jsParseInt16
  rw [List.dropWhile_cons, hns]
  rw [if_neg (by simp)]
  show (if c = '+' then Option.map (fun n : Nat => (n : Int)) (parseHexBody r)
    else if c = '-' then Option.map (fun n : Nat => -(n : Int)) (parseHexBody r)
    else Option.map (fun n : Nat => (n : Int)) (parseHexBody (c :: r))) = none
  rw [if_neg hplus, if_neg hminus, parseHexBody_none c r hc hc0]
  rfl

lemma padEnd64_stripSpaces_no_space (L : List Char) :
    ∀ c ∈ padEnd64 (stripSpaces L), isJsSpace c = false := by
  intro c hc
  unfold padEnd64 at hc
  rcases List.mem_append.mp hc with h | h
  · unfold stripSpaces at h
    have h2 := List.of_mem_filter h
    simpa using h2
  · have h2 := List.eq_of_mem_replicate h
    subst h2
    rfl

/-- The byte the decoder produces for group `i` of the padded, normalized
string, as a standalone function (definitional unfolding of
`hexToBytes`). -/
lemma hexToBytes_byte (s : String) (i : Nat) (hi : i < 32) :
    (hexToBytes s).getD i 0 =
      toUint8 (jsOr0 (jsParseInt16
        (((padEnd64 (stripSpaces (strip0x s.data))).drop (2 * i)).take 2))) := by
  unfold hexToBytes
  rw [List.getD_eq_getElem _ _ (by simpa using hi)]
  simp

/-- Claim C9 (amended): for every input string `hexToBytes` returns exactly
32 bytes; characters beyond the first 64 of the normalized input are
ignored and missing ones behave as `'0'`; a two-character group with no
parseable prefix (first character not a hex digit and not a sign) decodes
to zero; but a group with a parseable proper prefix — e.g. a hex digit
followed by a non-hex character — decodes to that prefix's value, not to
zero, and nothing raises an error. -/
theorem hexToBytes_normalizes :
    (∀ s : String, (hexToBytes s).length = 32) ∧
    (∀ s t : String, 64 ≤ (stripSpaces (strip0x s.data)).length →
      hexToBytes (s ++ t) = hexToBytes s) ∧
    (∀ s : String, (stripSpaces (strip0x s.data)).length < 64 →
      hexToBytes s = hexToBytes (s.push '0')) ∧
    (∀ s : String, ∀ i : Nat, i < 32 →
      (hexDigitVal?
        ((padEnd64 (stripSpaces (strip0x s.data))).getD (2 * i) '0')).isSome
          = false →
      (padEnd64 (stripSpaces (strip0x s.data))).getD (2 * i) '0' ≠ '+' →
      (padEnd64 (stripSpaces (strip0x s.data))).getD (2 * i) '0' ≠ '-' →
      (hexToBytes s).getD i 0 = 0) := by
  refine ⟨hexToBytes_length, ?_, ?_, ?_⟩
  · -- truncation
    intro s t h
    have hlen2 : 2 ≤ s.data.length := by
      have g1 := stripSpaces_length_le (strip0x s.data)
      have g2 := strip0x_length_le s.data
      omega
    unfold hexToBytes
    rw [String.data_append, strip0x_append _ _ hlen2, stripSpaces_append]
    rw [padEnd64_of_le _ (by simp; omega), padEnd64_of_le _ h]
    refine List.map_congr_left ?_
    intro i hi
    have hi32 : i < 32 := List.mem_range.mp hi
    rw [pair_take_of_front _ _ _ (by omega)]
  · -- zero padding
    intro s h
    unfold hexToBytes
    rw [String.data_push, strip0x_append_zero, stripSpaces_append]
    have hz : stripSpaces ['0'] = ['0'] := rfl
    rw [hz, padEnd64_append_zero _ h]
  · -- a group with no parseable prefix decodes to zero
    intro s i hi hhex hplus hminus
    have hlen : 64 ≤ (padEnd64 (stripSpaces (strip0x s.data))).length :=
      padEnd64_length _
    have hi2 : 2 * i < (padEnd64 (stripSpaces (strip0x s.data))).length := by
      omega
    rw [hexToBytes_byte s i hi]
    have hdrop :
        (padEnd64 (stripSpaces (strip0x s.data))).drop (2 * i) =
          (padEnd64 (stripSpaces (strip0x s.data))).getD (2 * i) '0' ::
            (padEnd64 (stripSpaces (strip0x s.data))).drop (2 * i + 1) := by
      rw [List.getD_eq_getElem _ _ hi2]
      exact List.drop_eq_getElem_cons hi2
    rw [hdrop]
    have hcmem :
        (padEnd64 (stripSpaces (strip0x s.data))).getD (2 * i) '0' ∈
          padEnd64 (stripSpaces (strip0x s.data)) := by
      rw [List.getD_eq_getElem _ _ hi2]
      exact List.getElem_mem _
    have hcns :
        isJsSpace ((padEnd64 (stripSpaces (strip0x s.data))).getD (2 * i) '0')
          = false :=
      padEnd64_stripSpaces_no_space _ _ hcmem
    have hpair :
        ((padEnd64 (stripSpaces (strip0x s.data))).getD (2 * i) '0' ::
            (padEnd64 (stripSpaces (strip0x s.data))).drop (2 * i + 1)).take 2 =
          (padEnd64 (stripSpaces (strip0x s.data))).getD (2 * i) '0' ::
            ((padEnd64 (stripSpaces (strip0x s.data))).drop (2 * i + 1)).take 1 :=
      rfl
    rw [hpair, jsParseInt16_none _ _ hcns hhex hplus hminus]
    rfl

/-- Claim C9 counterexample: the non-hex character `z` in the group `1z`
does not make the affected byte decode to zero — `parseInt("1z", 16)`
parses the prefix `1`, so byte 0 of `hexToBytes "1z"` is 1. -/
theorem hexToBytes_nonhex_not_zero :
    (hexToBytes "1z").getD 0 0 = 1 ∧ ¬ ((hexToBytes "1z").getD 0 0 = 0) := by
  decide

/-- Witness for C9: the four parts of `hexToBytes_normalizes` at concrete
inputs (64 `a`s for truncation; `zz` for the all-non-hex group). -/
theorem hexToBytes_normalizes_witness :
    (hexToBytes "1234").length = 32 ∧
    hexToBytes
        ("aaaaaaaaaaaaaaaaaaaaaaaaaaaaaaaaaaaaaaaaaaaaaaaaaaaaaaaaaaaaaaaa"
          ++ "ff") =
      hexToBytes "aaaaaaaaaaaaaaaaaaaaaaaaaaaaaaaaaaaaaaaaaaaaaaaaaaaaaaaaaaaaaaaa" ∧
    hexToBytes "ab" = hexToBytes (("ab" : String).push '0') ∧
    (hexToBytes "zz").getD 0 0 = 0 :=
  ⟨hexToBytes_normalizes.1 "1234",
    hexToBytes_normalizes.2.1
      "aaaaaaaaaaaaaaaaaaaaaaaaaaaaaaaaaaaaaaaaaaaaaaaaaaaaaaaaaaaaaaaa" "ff"
      (by decide),
    hexToBytes_normalizes.2.2.1 "ab" (by decide),
    hexToBytes_normalizes.2.2.2 "zz" 0 (by decide) (by decide) (by decide)
      (by decide)⟩

/-! ## Round trip `hexToBytes ∘ bytesToHex` -/

lemma byteToHexPair_length : ∀ b : Nat, b < 256 → (byteToHexPair b).length = 2 := by
  decide

lemma byteToHexPair_no_space :
    ∀ b : Nat, b < 256 → ∀ c ∈ byteToHexPair b, isJsSpace c = false := by
  decide

lemma byteToHexPair_ne0x : ∀ b : Nat, b < 256 → byteToHexPair b ≠ ['0', 'x'] := by
  decide

lemma byteToHexPair_parse :
    ∀ b : Nat, b < 256 → jsParseInt16 (byteToHexPair b) = some ((b : Nat) : Int) := by
  decide

lemma flatMap_pairs_length :
    ∀ bs : List Nat, (∀ b ∈ bs, b < 256) →
      (bs.flatMap byteToHexPair).length = 2 * bs.length := by
  intro bs
  induction bs with
  | nil => intro _; rfl
  | cons b bs ih =>
    intro h
    show (byteToHexPair b ++ bs.flatMap byteToHexPair).length = _
    rw [List.length_append, byteToHexPair_length b (h b (by simp)),
      ih (fun x hx => h x (by simp [hx]))]
    simp
    ring

lemma flatMap_pair_extract :
    ∀ (bs : List Nat) (i : Nat), (∀ b ∈ bs, b < 256) → i < bs.length →
      ((bs.flatMap byteToHexPair).drop (2 * i)).take 2 =
        byteToHexPair (bs.getD i 0) := by
  intro bs
  induction bs with
  | nil => intro i _ hi; simp at hi
  | cons b bs ih =>
    intro i h hi
    cases i with
    | zero =>
      show ((byteToHexPair b ++ bs.flatMap byteToHexPair).drop 0).take 2 = _
      rw [List.drop_zero, List.take_left' (byteToHexPair_length b (h b (by simp)))]
      rfl
    | succ i =>
      have hd :
          ((b :: bs).flatMap byteToHexPair).drop (2 * (i + 1)) =
            (bs.flatMap byteToHexPair).drop (2 * i) := by
        show (byteToHexPair b ++ bs.flatMap byteToHexPair).drop (2 * (i + 1)) = _
        have e : (byteToHexPair b ++ bs.flatMap byteToHexPair).drop 2 =
            bs.flatMap byteToHexPair :=
          List.drop_left' (byteToHexPair_length b (h b (by simp)))
        calc (byteToHexPair b ++ bs.flatMap byteToHexPair).drop (2 * (i + 1))
            = ((byteToHexPair b ++ bs.flatMap byteToHexPair).drop 2).drop (2 * i) := by
              rw [List.drop_drop]
              congr 1
              ring
          _ = (bs.flatMap byteToHexPair).drop (2 * i) := by rw [e]
      rw [hd]
      have hgd : ((b :: bs).getD (i + 1) 0) = bs.getD i 0 := by simp
      rw [hgd]
      exact ih i (fun x hx => h x (by simp [hx])) (by simpa using hi)

/-- Claim C10: `hexToBytes (bytesToHex b)` round-trips every 32-byte
array. -/
theorem hexToBytes_bytesToHex (bs : List Nat) (hlen : bs.length = 32)
    (hb : ∀ b ∈ bs, b < 256) : hexToBytes (bytesToHex bs) = bs := by
  have hflen : (bs.flatMap byteToHexPair).length = 64 := by
    rw [flatMap_pairs_length bs hb, hlen]
  have h0x : strip0x (bs.flatMap byteToHexPair) = bs.flatMap byteToHexPair := by
    unfold strip0x
    split_ifs with hc
    · exfalso
      cases bs with
      | nil => simp at hlen
      | cons b0 rest =>
        have hp : ((b0 :: rest).flatMap byteToHexPair).take 2 = byteToHexPair b0 := by
          show (byteToHexPair b0 ++ rest.flatMap byteToHexPair).take 2 = _
          exact List.take_left' (byteToHexPair_length b0 (hb b0 (by simp)))
        rw [hp] at hc
        exact byteToHexPair_ne0x b0 (hb b0 (by simp)) hc
    · rfl
  have hsp : stripSpaces (bs.flatMap byteToHexPair) = bs.flatMap byteToHexPair := by
    unfold stripSpaces
    rw [List.filter_eq_self.mpr]
    intro c hcm
    obtain ⟨b, hbm, hcb⟩ := List.mem_flatMap.mp hcm
    have h2 := byteToHexPair_no_space b (hb b hbm) c hcb
    simp [h2]
  unfold hexToBytes
  rw [show (bytesToHex bs).data = bs.flatMap byteToHexPair from rfl]
  rw [h0x, hsp, padEnd64_of_le _ (by rw [hflen])]
  refine List.ext_getElem (by simp [hlen]) ?_
  intro i h1 h2
  have hi32 : i < 32 := by simpa using h1
  rw [List.getElem_map, List.getElem_range]
  rw [flatMap_pair_extract bs i hb (by omega)]
  have hbi : bs.getD i 0 < 256 := by
    refine hb _ ?_
    rw [List.getD_eq_getElem _ _ (by omega)]
    exact List.getElem_mem _
  rw [byteToHexPair_parse _ hbi]
  have h3 : toUint8 (((bs.getD i 0 : Nat) : Int)) = bs.getD i 0 := by
    unfold toUint8
    omega
  show toUint8 (jsOr0 (some ((bs.getD i 0 : Nat) : Int))) = bs[i]
  rw [show jsOr0 (some ((bs.getD i 0 : Nat) : Int)) = ((bs.getD i 0 : Nat) : Int)
    from rfl]
  rw [h3, List.getD_eq_getElem _ _ (by omega)]

/-- Witness for C10 at the 32-byte array `[0, 1, …, 31]`. -/
theorem hexToBytes_bytesToHex_witness :
    (List.range 32).length = 32 ∧
    (∀ b ∈ List.range 32, b < 256) ∧
    hexToBytes (bytesToHex (List.range 32)) = List.range 32 :=
  ⟨by decide, by decide, hexToBytes_bytesToHex (List.range 32) (by decide) (by decide)⟩

end Miner
